import Mathlib

/-!
Verification of the students-assignment solver (`src/solver.py`).

The script validates student preference data (`Preferences`, a pydantic
model whose `check_sum` validator requires each student's vote weights to
sum to `MAX_POINTS_PER_STUDENT`), builds a CP-SAT model (`build_model`)
with one boolean per (student, topic) pair, an exactly-one constraint per
student, a capacity constraint per topic, and a joy variable per student
channelled to the weight of the chosen topic, and solves it
(`solve_model`) maximizing total joy, decoding the true booleans into a
student → topic mapping.

The embedding below represents a candidate valuation of the boolean
variables that satisfies each student's exactly-one constraint as the
list `asg` of chosen topics, parallel to the (insertion-ordered) student
list; the joy variables are determined by the channelling constraints, so
feasibility and objective are expressed directly over `asg`.
-/

namespace Solver

/-- `MAX_POINTS_PER_STUDENT = 9` in `solver.py` (the per-student budget `B`). -/
def MAX_POINTS_PER_STUDENT : Int := 9

/-- `MAX_STUDENTS_PER_TOPIC = 2` in `solver.py` (the per-topic capacity `C`). -/
def MAX_STUDENTS_PER_TOPIC : Nat := 2

/-- `Vote = NamedTuple("Vote", topic_id=int, preference=int)`: both fields are
unconstrained Python ints. -/
structure Vote where
  topic_id : Int
  preference : Int
deriving Repr, DecidableEq

/-- Python's `list(range(n))` on an int `n`: `[0, 1, ..., n-1]`, empty when `n ≤ 0`. -/
def pyRange (n : Int) : List Int :=
  (List.range n.toNat).map (fun k : Nat => (k : Int))

/-- The sum of the `preference` fields, as in
`sum(v.preference for v in val)`. -/
def voteSum (votes : List Vote) : Int :=
  (votes.map (·.preference)).sum

/-- The `check_sum` validator body:
`assert sum(v.preference for v in val) == MAX_POINTS_PER_STUDENT`. -/
def check_sum (votes : List Vote) : Bool :=
  voteSum votes == MAX_POINTS_PER_STUDENT

/-- `Preferences`: `students: dict[str, list[Vote]]` (insertion-ordered, so a
list of key/value pairs) and `topics_count: int`. -/
structure Preferences where
  students : List (String × List Vote)
  topics_count : Int
deriving Repr, DecidableEq

/-- The validation error raised when `check_sum` fails (pydantic wraps the
assertion into a `ValidationError`; the spec names it `InvalidPreferenceSum`). -/
inductive ValidationError where
  | invalidPreferenceSum
deriving Repr, DecidableEq

/-- Constructing `Preferences(students=..., topics_count=...)`: the
`check_sum` validator runs on each student's vote list and is the only
validation performed. -/
def mkPreferences (students : List (String × List Vote)) (topics_count : Int) :
    Except ValidationError Preferences :=
  if students.all (fun sv => check_sum sv.2) then
    .ok ⟨students, topics_count⟩
  else
    .error .invalidPreferenceSum

/-- `topic2pref = {v.topic_id: v.preference for v in votes}` followed by
`topic2pref[topic] if topic in topic2pref else 0`: a Python dict
comprehension keeps the LAST pair for a repeated key, hence the lookup
scans the reversed list. -/
def topicValue (votes : List Vote) (topic : Int) : Int :=
  match votes.reverse.find? (fun v => v.topic_id == topic) with
  | some v => v.preference
  | none => 0

/-- The feasible valuations of the CP model built by `build_model`, described
by the list `asg` of each student's chosen topic (in student insertion
order).  `asg` encodes booleans satisfying `AddExactlyOne` per student;
the remaining constraints are:
* every chosen topic is one of `list(range(topics_count))` (the booleans
  only exist for those topics);
* `sum(students.values()) <= MAX_STUDENTS_PER_TOPIC` for every topic;
* each student's joy variable `NewIntVar(0, MAX_POINTS_PER_STUDENT)` must
  equal `topicValue` of the chosen topic (the `OnlyEnforceIf` channelling),
  which is satisfiable exactly when that value lies in `[0, 9]`. -/
def feasible (p : Preferences) (asg : List Int) : Bool :=
  asg.length == p.students.length &&
  asg.all (fun t => (pyRange p.topics_count).contains t) &&
  (pyRange p.topics_count).all (fun t => asg.count t ≤ MAX_STUDENTS_PER_TOPIC) &&
  (p.students.zip asg).all (fun q =>
    decide (0 ≤ topicValue q.1.2 q.2) &&
    decide (topicValue q.1.2 q.2 ≤ MAX_POINTS_PER_STUDENT))

/-- The objective `model.Maximize(sum(student2joy.values()))`: under the
channelling constraints each student's joy equals the `topicValue` of its
chosen topic. -/
def reward (p : Preferences) (asg : List Int) : Int :=
  ((p.students.zip asg).map (fun q => topicValue q.1.2 q.2)).sum

/-- All valuations of the per-student exactly-one booleans: every list of
`n` chosen topics drawn from `topics`. -/
def allAssignments (topics : List Int) : Nat → List (List Int)
  | 0 => [[]]
  | n + 1 => topics.flatMap (fun t => (allAssignments topics n).map (fun asg => t :: asg))

/-- Deterministic selection of a maximum-`reward` candidate (first maximum
wins): models the CP-SAT solver returning one optimal solution. -/
def pickBest (p : Preferences) : List (List Int) → Option (List Int)
  | [] => none
  | a :: rest =>
    match pickBest p rest with
    | none => some a
    | some b => if reward p a < reward p b then some b else some a

/-- The failure raised by `solve_model` when the solver status is not
`OPTIMAL`: `raise ValueError("Optimal solution not found")`.  For a model
with no feasible valuation CP-SAT reports `INFEASIBLE`, hence this error. -/
inductive SolveError where
  | infeasible
deriving Repr, DecidableEq

/-- Modelled from the spec: the call `cp_model.CpSolver().Solve(model)` is to
an external exact optimizer (ortools CP-SAT, not part of this repository);
per §4.3 it returns an optimal feasible solution when one exists and
reports infeasibility otherwise.  The decoding loop of `solve_model`
(`if solver.BooleanValue(var): solution[student] = topic`) maps each
student to its unique chosen topic, in student order. -/
def solvePrefs (p : Preferences) : Except SolveError (List (String × Int)) :=
  match pickBest p
      ((allAssignments (pyRange p.topics_count) p.students.length).filter (feasible p)) with
  | none => .error .infeasible
  | some best => .ok ((p.students.zip best).map (fun q => (q.1.1, q.2)))

/-- The two failure channels of the script: pydantic validation at
`Preferences` construction, and the `ValueError` of `solve_model`.  They
are distinct variants raised by distinct calls. -/
inductive RunError where
  | validation (e : ValidationError)
  | solve (e : SolveError)
deriving Repr, DecidableEq

/-- The full pipeline as exercised by `main`/`test_on_random`:
construct `Preferences`, `build_model`, `solve_model`. -/
def run (students : List (String × List Vote)) (topics_count : Int) :
    Except RunError (List (String × Int)) :=
  match mkPreferences students topics_count with
  | .error e => .error (.validation e)
  | .ok p =>
    match solvePrefs p with
    | .error e => .error (.solve e)
    | .ok sol => .ok sol

/-- The spec's data-model invariant for one student's vote list (§3):
non-negative weights summing to the budget, distinct topic ids, ids within
`[0, topics_count)`. -/
def validVotes (topics_count : Int) (votes : List Vote) : Prop :=
  voteSum votes = MAX_POINTS_PER_STUDENT ∧
  (∀ v ∈ votes, 0 ≤ v.preference) ∧
  (votes.map (·.topic_id)).Nodup ∧
  (∀ v ∈ votes, 0 ≤ v.topic_id ∧ v.topic_id < topics_count)

/-- The spec's notion of a valid Preference Set: distinct student keys (a
Python dict) and valid votes per student. -/
def validPrefs (students : List (String × List Vote)) (topics_count : Int) : Prop :=
  (students.map Prod.fst).Nodup ∧ ∀ sv ∈ students, validVotes topics_count sv.2

/-- A feasible assignment in the words of the claims: each agent gets
exactly one resource id in `[0, resource_count)` and no resource id is used
more than `MAX_STUDENTS_PER_TOPIC` times (ids assigned to nobody occur 0
times, so it suffices to bound the ids that occur). -/
def feasibleClaim (students : List (String × List Vote)) (topics_count : Int)
    (asg : List Int) : Prop :=
  asg.length = students.length ∧
  (∀ t ∈ asg, 0 ≤ t ∧ t < topics_count) ∧
  (∀ t ∈ asg, asg.count t ≤ MAX_STUDENTS_PER_TOPIC)

/-- The reward of an assignment in the words of the claims: the weight the
agent gave to its assigned resource (its vote, looked up first-match), or 0
if the agent did not vote for it. -/
def specWeight (votes : List Vote) (topic : Int) : Int :=
  match votes.find? (fun v => v.topic_id == topic) with
  | some v => v.preference
  | none => 0

/-- Total reward of an assignment, in the words of the claims. -/
def rewardSpec (students : List (String × List Vote)) (asg : List Int) : Int :=
  ((students.zip asg).map (fun q => specWeight q.1.2 q.2)).sum

instance (topics_count : Int) (votes : List Vote) : Decidable (validVotes topics_count votes) := by
  unfold validVotes; infer_instance

instance (students : List (String × List Vote)) (topics_count : Int) :
    Decidable (validPrefs students topics_count) := by
  unfold validPrefs; infer_instance

instance (students : List (String × List Vote)) (topics_count : Int) (asg : List Int) :
    Decidable (feasibleClaim students topics_count asg) := by
  unfold feasibleClaim; infer_instance

/-! ### Basic lemmas about the embedding -/

lemma mem_pyRange {n t : Int} : t ∈ pyRange n ↔ 0 ≤ t ∧ t < n := by
  simp only [pyRange, List.mem_map, List.mem_range]
  constructor
  · rintro ⟨k, hk, rfl⟩
    omega
  · intro ⟨h0, h1⟩
    exact ⟨t.toNat, by omega, by omega⟩

lemma mkPreferences_ok_of_sums (students : List (String × List Vote)) (topics_count : Int)
    (hsum : ∀ sv ∈ students, voteSum sv.2 = 9) :
    mkPreferences students topics_count = .ok ⟨students, topics_count⟩ := by
  unfold mkPreferences
  rw [if_pos]
  rw [List.all_eq_true]
  intro sv hsv
  simpa [check_sum, MAX_POINTS_PER_STUDENT] using hsum sv hsv

lemma mkPreferences_all_sums {students : List (String × List Vote)}
    (hall : students.all (fun sv => check_sum sv.2) = true) :
    ∀ sv ∈ students, voteSum sv.2 = 9 := by
  rw [List.all_eq_true] at hall
  intro sv hsv
  simpa [check_sum, MAX_POINTS_PER_STUDENT] using hall sv hsv

/-! ### Claim theorems: validation (C5, C6, C7, C9) -/

/-- C5: Constructing a Preference Set fails (with `InvalidPreferenceSum`) if
and only if some agent's vote weights do not sum exactly to the budget
`B = 9`; when every agent's weights sum to 9, construction succeeds. -/
theorem C5_sum_validation_iff (students : List (String × List Vote)) (topics_count : Int) :
    (mkPreferences students topics_count = .ok ⟨students, topics_count⟩ ↔
      ∀ sv ∈ students, voteSum sv.2 = 9) ∧
    (mkPreferences students topics_count = .error .invalidPreferenceSum ↔
      ¬ ∀ sv ∈ students, voteSum sv.2 = 9) := by
  by_cases h : students.all (fun sv => check_sum sv.2) = true
  · have hsums := mkPreferences_all_sums h
    have hok : mkPreferences students topics_count = .ok ⟨students, topics_count⟩ :=
      mkPreferences_ok_of_sums _ _ hsums
    rw [hok]
    refine ⟨⟨fun _ => hsums, fun _ => rfl⟩,
      ⟨fun habs => Except.noConfusion habs, fun hn => absurd hsums hn⟩⟩
  · have herr : mkPreferences students topics_count = .error .invalidPreferenceSum := by
      unfold mkPreferences
      rw [if_neg h]
    rw [herr]
    have hnot : ¬ ∀ sv ∈ students, voteSum sv.2 = 9 := by
      intro hsums
      apply h
      rw [List.all_eq_true]
      intro sv hsv
      simpa [check_sum, MAX_POINTS_PER_STUDENT] using hsums sv hsv
    refine ⟨⟨fun habs => Except.noConfusion habs, fun hsums => absurd hsums hnot⟩,
      ⟨fun _ => hnot, fun _ => rfl⟩⟩

/-- C6 counterexample: an input whose only vote references resource id 5,
outside `[0, 1)`, yet Preference Set construction succeeds (no
`ResourceIdOutOfRange` check exists in the code). -/
theorem C6_counterexample :
    (∃ sv ∈ ([("a", [Vote.mk 5 9])] : List (String × List Vote)),
      ∃ v ∈ sv.2, ¬ (0 ≤ v.topic_id ∧ v.topic_id < 1)) ∧
    mkPreferences [("a", [Vote.mk 5 9])] 1 = .ok ⟨[("a", [Vote.mk 5 9])], 1⟩ := by
  constructor
  · exact ⟨("a", [Vote.mk 5 9]), by decide, Vote.mk 5 9, by decide, by decide⟩
  · rfl

/-- C6 amended: construction performs no resource-id range check; an input
containing votes for resource ids outside `[0, topics_count)` still
constructs successfully, provided every agent's weights sum to 9. -/
theorem C6_out_of_range_accepted (students : List (String × List Vote)) (topics_count : Int)
    (hoob : ∃ sv ∈ students, ∃ v ∈ sv.2, ¬ (0 ≤ v.topic_id ∧ v.topic_id < topics_count))
    (hsum : ∀ sv ∈ students, voteSum sv.2 = 9) :
    mkPreferences students topics_count = .ok ⟨students, topics_count⟩ :=
  mkPreferences_ok_of_sums students topics_count hsum

/-- Witness for `C6_out_of_range_accepted` at the concrete out-of-range input. -/
theorem C6_out_of_range_accepted_witness :
    (∃ sv ∈ ([("a", [Vote.mk 5 9])] : List (String × List Vote)),
      ∃ v ∈ sv.2, ¬ (0 ≤ v.topic_id ∧ v.topic_id < 1)) ∧
    (∀ sv ∈ ([("a", [Vote.mk 5 9])] : List (String × List Vote)), voteSum sv.2 = 9) ∧
    mkPreferences [("a", [Vote.mk 5 9])] 1 = .ok ⟨[("a", [Vote.mk 5 9])], 1⟩ :=
  ⟨by decide, by decide,
    C6_out_of_range_accepted [("a", [Vote.mk 5 9])] 1 (by decide) (by decide)⟩

/-- C7 counterexample: an input in which agent "a" votes twice for resource
id 0, yet Preference Set construction succeeds (no `DuplicateVote` check
exists in the code; the weights 4 and 5 sum to 9, which is all that is
checked). -/
theorem C7_counterexample :
    ¬ (([Vote.mk 0 4, Vote.mk 0 5].map (·.topic_id)).Nodup) ∧
    mkPreferences [("a", [Vote.mk 0 4, Vote.mk 0 5])] 1 =
      .ok ⟨[("a", [Vote.mk 0 4, Vote.mk 0 5])], 1⟩ := by
  constructor
  · decide
  · rfl

/-- C7 amended: construction performs no duplicate-vote check; an input in
which some agent votes twice for the same resource id still constructs
successfully, provided every agent's weights (duplicates included) sum to 9. -/
theorem C7_duplicates_accepted (students : List (String × List Vote)) (topics_count : Int)
    (hdup : ∃ sv ∈ students, ¬ (sv.2.map (·.topic_id)).Nodup)
    (hsum : ∀ sv ∈ students, voteSum sv.2 = 9) :
    mkPreferences students topics_count = .ok ⟨students, topics_count⟩ :=
  mkPreferences_ok_of_sums students topics_count hsum

/-- Witness for `C7_duplicates_accepted` at the concrete duplicated input. -/
theorem C7_duplicates_accepted_witness :
    (∃ sv ∈ ([("a", [Vote.mk 0 4, Vote.mk 0 5])] : List (String × List Vote)),
      ¬ (sv.2.map (·.topic_id)).Nodup) ∧
    (∀ sv ∈ ([("a", [Vote.mk 0 4, Vote.mk 0 5])] : List (String × List Vote)),
      voteSum sv.2 = 9) ∧
    mkPreferences [("a", [Vote.mk 0 4, Vote.mk 0 5])] 1 =
      .ok ⟨[("a", [Vote.mk 0 4, Vote.mk 0 5])], 1⟩ :=
  ⟨by decide, by decide,
    C7_duplicates_accepted [("a", [Vote.mk 0 4, Vote.mk 0 5])] 1 (by decide) (by decide)⟩

/-- C9: construction accepts vote lists containing negative weights as long
as the weights sum to exactly 9; individual non-negativity is not checked. -/
theorem C9_negative_weights_accepted (students : List (String × List Vote)) (topics_count : Int)
    (hneg : ∃ sv ∈ students, ∃ v ∈ sv.2, v.preference < 0)
    (hsum : ∀ sv ∈ students, voteSum sv.2 = 9) :
    mkPreferences students topics_count = .ok ⟨students, topics_count⟩ :=
  mkPreferences_ok_of_sums students topics_count hsum

/-- Witness for `C9_negative_weights_accepted`: weights -1 and 10 sum to 9
and are accepted. -/
theorem C9_negative_weights_accepted_witness :
    (∃ sv ∈ ([("a", [Vote.mk 0 (-1), Vote.mk 1 10])] : List (String × List Vote)),
      ∃ v ∈ sv.2, v.preference < 0) ∧
    (∀ sv ∈ ([("a", [Vote.mk 0 (-1), Vote.mk 1 10])] : List (String × List Vote)),
      voteSum sv.2 = 9) ∧
    mkPreferences [("a", [Vote.mk 0 (-1), Vote.mk 1 10])] 2 =
      .ok ⟨[("a", [Vote.mk 0 (-1), Vote.mk 1 10])], 2⟩ :=
  ⟨by decide, by decide,
    C9_negative_weights_accepted [("a", [Vote.mk 0 (-1), Vote.mk 1 10])] 2
      (by decide) (by decide)⟩

/-! ### Properties of the exhaustive-search model of the solver -/

lemma pickBest_mem {p : Preferences} : ∀ {l : List (List Int)} {b : List Int},
    pickBest p l = some b → b ∈ l
  | [], b, h => by cases h
  | a :: rest, b, h => by
    rw [pickBest] at h
    cases hrest : pickBest p rest with
    | none =>
      simp only [hrest] at h
      cases h
      exact List.mem_cons_self a rest
    | some c =>
      simp only [hrest] at h
      by_cases hlt : reward p a < reward p c
      · rw [if_pos hlt] at h
        cases h
        exact List.mem_cons_of_mem a (pickBest_mem hrest)
      · rw [if_neg hlt] at h
        cases h
        exact List.mem_cons_self a rest

lemma pickBest_isSome {p : Preferences} {x : List Int} {l : List (List Int)} :
    ∃ b, pickBest p (x :: l) = some b := by
  rw [pickBest]
  cases pickBest p l with
  | none => exact ⟨x, rfl⟩
  | some c =>
    by_cases hlt : reward p x < reward p c
    · exact ⟨c, by simp only [if_pos hlt]⟩
    · exact ⟨x, by simp only [if_neg hlt]⟩

lemma pickBest_eq_none {p : Preferences} {l : List (List Int)}
    (h : pickBest p l = none) : l = [] := by
  cases l with
  | nil => rfl
  | cons x rest =>
    obtain ⟨b, hb⟩ := pickBest_isSome (p := p) (x := x) (l := rest)
    rw [h] at hb
    cases hb

lemma pickBest_le {p : Preferences} : ∀ {l : List (List Int)} {b : List Int},
    pickBest p l = some b → ∀ a ∈ l, reward p a ≤ reward p b
  | [], b, h => by cases h
  | x :: rest, b, h => by
    rw [pickBest] at h
    cases hrest : pickBest p rest with
    | none =>
      simp only [hrest] at h
      cases h
      have hnil := pickBest_eq_none hrest
      subst hnil
      intro a ha
      rcases List.mem_cons.mp ha with rfl | ha
      · exact le_refl _
      · cases ha
    | some c =>
      simp only [hrest] at h
      have hc := pickBest_le hrest
      by_cases hlt : reward p x < reward p c
      · rw [if_pos hlt] at h
        cases h
        intro a ha
        rcases List.mem_cons.mp ha with rfl | ha
        · exact le_of_lt hlt
        · exact hc a ha
      · rw [if_neg hlt] at h
        cases h
        intro a ha
        rcases List.mem_cons.mp ha with rfl | ha
        · exact le_refl _
        · exact le_trans (hc a ha) (not_lt.mp hlt)

lemma mem_allAssignments {topics : List Int} : ∀ {n : Nat} {asg : List Int},
    asg.length = n → (∀ t ∈ asg, t ∈ topics) → asg ∈ allAssignments topics n := by
  intro n
  induction n with
  | zero =>
    intro asg hlen _
    rw [List.length_eq_zero] at hlen
    subst hlen
    rw [allAssignments]
    exact List.mem_singleton.mpr rfl
  | succ m ih =>
    intro asg hlen hmem
    cases asg with
    | nil => cases hlen
    | cons t rest =>
      rw [allAssignments, List.mem_flatMap]
      refine ⟨t, hmem t (List.mem_cons_self t rest), ?_⟩
      rw [List.mem_map]
      refine ⟨rest, ih ?_ (fun x hx => hmem x (List.mem_cons_of_mem t hx)), rfl⟩
      simpa using hlen

/-- Inversion of a successful `run`: the solver picked a feasible valuation
of the model that maximizes the objective over all feasible valuations, and
the returned mapping is its decoding. -/
lemma run_ok_inv {students : List (String × List Vote)} {topics_count : Int}
    {sol : List (String × Int)} (hok : run students topics_count = .ok sol) :
    (∀ sv ∈ students, voteSum sv.2 = 9) ∧
    ∃ best, feasible ⟨students, topics_count⟩ best = true ∧
      (∀ a ∈ allAssignments (pyRange topics_count) students.length,
        feasible ⟨students, topics_count⟩ a = true →
          reward ⟨students, topics_count⟩ a ≤ reward ⟨students, topics_count⟩ best) ∧
      sol = (students.zip best).map (fun q => (q.1.1, q.2)) := by
  have hsums : ∀ sv ∈ students, voteSum sv.2 = 9 := by
    by_cases h : students.all (fun sv => check_sum sv.2) = true
    · exact mkPreferences_all_sums h
    · exfalso
      rw [run] at hok
      have herr : mkPreferences students topics_count = .error .invalidPreferenceSum := by
        unfold mkPreferences
        rw [if_neg h]
      rw [herr] at hok
      simp only at hok
      exact Except.noConfusion hok
  refine ⟨hsums, ?_⟩
  rw [run, mkPreferences_ok_of_sums students topics_count hsums] at hok
  simp only at hok
  rw [solvePrefs.eq_def] at hok
  simp only at hok
  cases hpick : pickBest ⟨students, topics_count⟩
      ((allAssignments (pyRange topics_count) students.length).filter
        (feasible ⟨students, topics_count⟩)) with
  | none =>
    rw [hpick] at hok
    simp only at hok
    exact Except.noConfusion hok
  | some best =>
    rw [hpick] at hok
    simp only [Except.ok.injEq] at hok
    have hmem := pickBest_mem hpick
    rw [List.mem_filter] at hmem
    refine ⟨best, hmem.2, ?_, hok.symm⟩
    intro a ha hfeas
    exact pickBest_le hpick a (List.mem_filter.mpr ⟨ha, hfeas⟩)

/-! ### Bounds on `topicValue` and the bridge to the claims' reward -/

lemma topicValue_mem_or_zero (votes : List Vote) (t : Int) :
    topicValue votes t = 0 ∨
    ∃ v ∈ votes, v.topic_id = t ∧ topicValue votes t = v.preference := by
  rw [topicValue]
  cases hfind : votes.reverse.find? (fun v => v.topic_id == t) with
  | none => exact Or.inl rfl
  | some v =>
    refine Or.inr ⟨v, ?_, ?_, rfl⟩
    · exact List.mem_reverse.mp (List.mem_of_find?_eq_some hfind)
    · have := List.find?_some hfind
      simpa using this

lemma topicValue_bounds {votes : List Vote} (t : Int)
    (hnn : ∀ v ∈ votes, 0 ≤ v.preference) (hsum : voteSum votes = 9) :
    0 ≤ topicValue votes t ∧ topicValue votes t ≤ 9 := by
  rcases topicValue_mem_or_zero votes t with h | ⟨v, hv, _, h⟩
  · rw [h]; exact ⟨le_refl 0, by norm_num⟩
  · rw [h]
    refine ⟨hnn v hv, ?_⟩
    have hmem : v.preference ∈ votes.map (·.preference) :=
      List.mem_map.mpr ⟨v, hv, rfl⟩
    have hle : v.preference ≤ (votes.map (·.preference)).sum :=
      List.single_le_sum (by intro x hx
                             obtain ⟨w, hw, rfl⟩ := List.mem_map.mp hx
                             exact hnn w hw) _ hmem
    rw [voteSum] at hsum
    omega

/-- With distinct topic ids, the last-match lookup of the dict comprehension
agrees with the first-match lookup (there is at most one match). -/
lemma find?_reverse_eq_of_nodup {t : Int} : ∀ {votes : List Vote},
    (votes.map (·.topic_id)).Nodup →
      votes.reverse.find? (fun v => v.topic_id == t) =
        votes.find? (fun v => v.topic_id == t) := by
  intro votes
  induction votes with
  | nil => intro _; rfl
  | cons v rest ih =>
    intro hnd
    rw [List.map_cons, List.nodup_cons] at hnd
    rw [List.reverse_cons, List.find?_append]
    by_cases hv : v.topic_id = t
    · have hnone : rest.find? (fun w => w.topic_id == t) = none := by
        rw [List.find?_eq_none]
        intro w hw hbeq
        exact hnd.1 (List.mem_map.mpr ⟨w, hw, by subst hv; simpa using hbeq⟩)
      have hnone' : rest.reverse.find? (fun w => w.topic_id == t) = none := by
        rw [ih hnd.2, hnone]
      rw [hnone', List.find?_cons_of_pos _ (by simpa using hv)]
      simp [Option.or, hv]
    · have hcons : (v :: rest).find? (fun w => w.topic_id == t) =
          rest.find? (fun w => w.topic_id == t) :=
        List.find?_cons_of_neg _ (by simpa using hv)
      rw [hcons, ih hnd.2]
      have hv1 : List.find? (fun w => w.topic_id == t) [v] = none := by
        simp [hv]
      rw [hv1]
      cases rest.find? (fun w => w.topic_id == t) <;> rfl

lemma specWeight_eq_topicValue {votes : List Vote}
    (hnd : (votes.map (·.topic_id)).Nodup) (t : Int) :
    specWeight votes t = topicValue votes t := by
  rw [specWeight, topicValue, find?_reverse_eq_of_nodup hnd]

lemma rewardSpec_eq_reward (topics_count : Int) {students : List (String × List Vote)}
    (hnd : ∀ sv ∈ students, (sv.2.map (·.topic_id)).Nodup) (asg : List Int) :
    rewardSpec students asg = reward ⟨students, topics_count⟩ asg := by
  rw [rewardSpec, reward]
  congr 1
  apply List.map_congr_left
  intro q hq
  exact specWeight_eq_topicValue (hnd q.1 (List.of_mem_zip hq).1) q.2

/-- The model's feasibility predicate, unfolded to its propositional content. -/
lemma feasible_iff {students : List (String × List Vote)} {topics_count : Int}
    {asg : List Int} :
    feasible ⟨students, topics_count⟩ asg = true ↔
      (asg.length = students.length ∧
       (∀ t ∈ asg, 0 ≤ t ∧ t < topics_count) ∧
       (∀ t ∈ pyRange topics_count, asg.count t ≤ MAX_STUDENTS_PER_TOPIC) ∧
       (∀ q ∈ students.zip asg,
         0 ≤ topicValue q.1.2 q.2 ∧ topicValue q.1.2 q.2 ≤ MAX_POINTS_PER_STUDENT)) := by
  rw [feasible]
  simp only [Bool.and_eq_true, List.all_eq_true, beq_iff_eq, decide_eq_true_eq,
    List.contains_eq_any_beq, List.any_eq_true]
  constructor
  · rintro ⟨⟨⟨hlen, hmem⟩, hcount⟩, hjoy⟩
    refine ⟨hlen, ?_, hcount, fun q hq => hjoy q hq⟩
    intro t ht
    obtain ⟨u, hu, hbeq⟩ := hmem t ht
    have : t = u := by simpa using hbeq
    subst this
    exact mem_pyRange.mp hu
  · rintro ⟨hlen, hmem, hcount, hjoy⟩
    refine ⟨⟨⟨hlen, ?_⟩, hcount⟩, fun q hq => hjoy q hq⟩
    intro t ht
    exact ⟨t, mem_pyRange.mpr (hmem t ht), by simp⟩

/-- Each value of `(List.range n).map (fun i => i / 2)` occurs at most twice:
only `2k` and `2k + 1` can map to `k`. -/
lemma count_range_div_two_le (n : Nat) (t : Int) :
    (((List.range n).map (fun i : Nat => ((i / 2 : Nat) : Int))).count t) ≤ 2 := by
  rw [List.count_eq_countP, List.countP_map, List.countP_eq_length_filter]
  have hsub : (List.range n).filter
      ((fun x => x == t) ∘ (fun i : Nat => ((i / 2 : Nat) : Int))) ⊆
      [2 * t.toNat, 2 * t.toNat + 1] := by
    intro i hi
    rw [List.mem_filter] at hi
    have hdiv : ((i / 2 : Nat) : Int) = t := by simpa using hi.2
    have h1 : i = 2 * t.toNat ∨ i = 2 * t.toNat + 1 := by omega
    rcases h1 with h1 | h1 <;> simp [h1]
  have hnd : ((List.range n).filter
      ((fun x => x == t) ∘ (fun i : Nat => ((i / 2 : Nat) : Int)))).Nodup :=
    (List.nodup_range n).filter _
  have := (hnd.subperm hsub).length_le
  simpa using this

/-- Pigeonhole witness: routing student `i` to topic `i / 2` satisfies the
model whenever `|students| ≤ topics_count * 2`, so the CP model is
feasible and the solve succeeds. -/
lemma run_ok_of_capacity (students : List (String × List Vote)) (topics_count : Int)
    (hsum : ∀ sv ∈ students, voteSum sv.2 = 9)
    (hnn : ∀ sv ∈ students, ∀ v ∈ sv.2, 0 ≤ v.preference)
    (hcap : (students.length : Int) ≤ topics_count * 2) :
    ∃ sol, run students topics_count = .ok sol := by
  have hlen : ((List.range students.length).map
      (fun i : Nat => ((i / 2 : Nat) : Int))).length = students.length := by
    simp
  have hmemw : ∀ t ∈ (List.range students.length).map
      (fun i : Nat => ((i / 2 : Nat) : Int)), 0 ≤ t ∧ t < topics_count := by
    intro t ht
    rw [List.mem_map] at ht
    obtain ⟨i, hi, rfl⟩ := ht
    rw [List.mem_range] at hi
    omega
  have hfeasw : feasible ⟨students, topics_count⟩
      ((List.range students.length).map (fun i : Nat => ((i / 2 : Nat) : Int))) = true := by
    rw [feasible_iff]
    refine ⟨hlen, hmemw, ?_, ?_⟩
    · intro t _
      exact count_range_div_two_le students.length t
    · intro q hq
      have hq1 := (List.of_mem_zip hq).1
      exact topicValue_bounds q.2 (hnn q.1 hq1) (hsum q.1 hq1)
  have hmemfilter : (List.range students.length).map
      (fun i : Nat => ((i / 2 : Nat) : Int)) ∈
      (allAssignments (pyRange topics_count) students.length).filter
        (feasible ⟨students, topics_count⟩) :=
    List.mem_filter.mpr
      ⟨by
        have := mem_allAssignments hlen
          (fun t ht => mem_pyRange.mpr (hmemw t ht))
        exact this, hfeasw⟩
  rw [run, mkPreferences_ok_of_sums students topics_count hsum]
  simp only
  rw [solvePrefs.eq_def]
  simp only
  cases hflt : (allAssignments (pyRange topics_count) students.length).filter
      (feasible ⟨students, topics_count⟩) with
  | nil =>
    rw [hflt] at hmemfilter
    cases hmemfilter
  | cons x l =>
    obtain ⟨b, hb⟩ := pickBest_isSome (p := ⟨students, topics_count⟩) (x := x) (l := l)
    rw [hb]
    exact ⟨_, rfl⟩

/-- Decoding the chosen valuation keeps the student keys, in order. -/
lemma decode_map_fst {students : List (String × List Vote)} {best : List Int}
    (hlen : best.length = students.length) :
    (((students.zip best).map (fun q => (q.1.1, q.2))).map Prod.fst) =
      students.map Prod.fst := by
  rw [List.map_map]
  have hcomp : (Prod.fst ∘ fun q : (String × List Vote) × Int => (q.1.1, q.2)) =
      (Prod.fst ∘ Prod.fst) := rfl
  rw [hcomp, ← List.map_map]
  rw [List.map_fst_zip students best (le_of_eq hlen.symm)]

/-- Decoding the chosen valuation keeps the chosen topics, in order. -/
lemma decode_map_snd {students : List (String × List Vote)} {best : List Int}
    (hlen : best.length = students.length) :
    (((students.zip best).map (fun q => (q.1.1, q.2))).map Prod.snd) = best := by
  rw [List.map_map]
  have hcomp : (Prod.snd ∘ fun q : (String × List Vote) × Int => (q.1.1, q.2)) =
      Prod.snd := rfl
  rw [hcomp]
  exact List.map_snd_zip students best (le_of_eq hlen)

/-- C10: for an empty agents mapping and any resource count (any integer,
positive or not), the solve succeeds and returns the empty assignment. -/
theorem C10_empty_students (topics_count : Int) : run [] topics_count = .ok [] := by
  rw [run, mkPreferences_ok_of_sums [] topics_count (by intro sv hsv; cases hsv)]
  simp only
  rw [solvePrefs.eq_def]
  have hfeas : feasible ⟨[], topics_count⟩ [] = true := by
    rw [feasible]
    simp [List.all_eq_true, MAX_STUDENTS_PER_TOPIC]
  simp only [List.length_nil, allAssignments, List.filter_cons, hfeas, List.filter_nil]
  simp only [pickBest]
  rfl

/-! ### Claim theorems: solving (C1, C2, C3, C4, C8) -/

/-- C1: for every valid Preference Set for which solving returns an
assignment, the total reward of the returned assignment (sum over agents of
the weight the agent gave to its assigned resource, or 0 if unvoted) is ≥
the total reward of every other feasible assignment. -/
theorem C1_reward_maximal (students : List (String × List Vote)) (topics_count : Int)
    (hvalid : validPrefs students topics_count)
    (sol : List (String × Int)) (hok : run students topics_count = .ok sol)
    (asg : List Int) (hfeas : feasibleClaim students topics_count asg) :
    rewardSpec students asg ≤ rewardSpec students (sol.map Prod.snd) := by
  obtain ⟨hsums, best, hbfeas, hmax, hsol⟩ := run_ok_inv hok
  have hlen := (feasible_iff.mp hbfeas).1
  have hnd : ∀ sv ∈ students, (sv.2.map (·.topic_id)).Nodup :=
    fun sv hsv => (hvalid.2 sv hsv).2.2.1
  subst hsol
  rw [decode_map_snd hlen]
  rw [rewardSpec_eq_reward topics_count hnd asg, rewardSpec_eq_reward topics_count hnd best]
  obtain ⟨hlen', hmem', hcount'⟩ := hfeas
  have hfeasm : feasible ⟨students, topics_count⟩ asg = true := by
    rw [feasible_iff]
    refine ⟨hlen', hmem', ?_, ?_⟩
    · intro t _
      by_cases hta : t ∈ asg
      · exact hcount' t hta
      · rw [List.count_eq_zero_of_not_mem hta]
        exact Nat.zero_le _
    · intro q hq
      have hq1 := (List.of_mem_zip hq).1
      exact topicValue_bounds q.2 ((hvalid.2 q.1 hq1).2.1) ((hvalid.2 q.1 hq1).1)
  exact hmax asg
    (mem_allAssignments hlen' (fun t ht => mem_pyRange.mpr (hmem' t ht))) hfeasm

/-- Witness for `C1_reward_maximal`: with students a: {(0,9)}, b: {(0,5),(1,4)}
and 2 topics, the solver returns {a: 0, b: 0} with reward 14; the feasible
alternative [0, 1] has reward 13 ≤ 14. -/
theorem C1_reward_maximal_witness :
    validPrefs [("a", [Vote.mk 0 9]), ("b", [Vote.mk 0 5, Vote.mk 1 4])] 2 ∧
    run [("a", [Vote.mk 0 9]), ("b", [Vote.mk 0 5, Vote.mk 1 4])] 2 =
      .ok [("a", 0), ("b", 0)] ∧
    feasibleClaim [("a", [Vote.mk 0 9]), ("b", [Vote.mk 0 5, Vote.mk 1 4])] 2 [0, 1] ∧
    rewardSpec [("a", [Vote.mk 0 9]), ("b", [Vote.mk 0 5, Vote.mk 1 4])] [0, 1] ≤
      rewardSpec [("a", [Vote.mk 0 9]), ("b", [Vote.mk 0 5, Vote.mk 1 4])]
        (([("a", (0 : Int)), ("b", (0 : Int))]).map Prod.snd) :=
  ⟨by decide, by rfl, by decide,
    C1_reward_maximal [("a", [Vote.mk 0 9]), ("b", [Vote.mk 0 5, Vote.mk 1 4])] 2
      (by decide) [("a", 0), ("b", 0)] (by rfl) [0, 1] (by decide)⟩

/-- C2: for every valid Preference Set for which solving returns an
assignment, the returned mapping contains every input agent exactly once
(the key list equals the input key list, which has no duplicates), and
every resource id appears as a value at most `MAX_STUDENTS_PER_TOPIC = 2`
times. -/
theorem C2_assignment_shape (students : List (String × List Vote)) (topics_count : Int)
    (hvalid : validPrefs students topics_count)
    (sol : List (String × Int)) (hok : run students topics_count = .ok sol) :
    sol.map Prod.fst = students.map Prod.fst ∧
    (sol.map Prod.fst).Nodup ∧
    (∀ t : Int, (sol.map Prod.snd).count t ≤ MAX_STUDENTS_PER_TOPIC) := by
  obtain ⟨hsums, best, hbfeas, hmax, hsol⟩ := run_ok_inv hok
  rw [feasible_iff] at hbfeas
  obtain ⟨hlen, hmem, hcount, hjoy⟩ := hbfeas
  subst hsol
  refine ⟨decode_map_fst hlen, ?_, ?_⟩
  · rw [decode_map_fst hlen]
    exact hvalid.1
  · intro t
    rw [decode_map_snd hlen]
    by_cases ht : t ∈ pyRange topics_count
    · exact hcount t ht
    · have hnotin : t ∉ best := fun hin => ht (mem_pyRange.mpr (hmem t hin))
      rw [List.count_eq_zero_of_not_mem hnotin]
      exact Nat.zero_le _

/-- Witness for `C2_assignment_shape` at a concrete one-student instance. -/
theorem C2_assignment_shape_witness :
    validPrefs [("a", [Vote.mk 0 9])] 1 ∧
    run [("a", [Vote.mk 0 9])] 1 = .ok [("a", 0)] ∧
    (([("a", (0 : Int))]).map Prod.fst = [("a", [Vote.mk 0 9])].map Prod.fst ∧
     (([("a", (0 : Int))]).map Prod.fst).Nodup ∧
     (∀ t : Int, (([("a", (0 : Int))]).map Prod.snd).count t ≤ MAX_STUDENTS_PER_TOPIC)) :=
  ⟨by decide, by rfl,
    C2_assignment_shape [("a", [Vote.mk 0 9])] 1 (by decide) [("a", 0)] (by rfl)⟩

/-- C3: for every valid Preference Set with `|agents| ≤ topics_count * 2`,
the solve succeeds and returns an assignment (no `Infeasible`, no error). -/
theorem C3_within_capacity_succeeds (students : List (String × List Vote))
    (topics_count : Int) (hvalid : validPrefs students topics_count)
    (hcap : (students.length : Int) ≤ topics_count * 2) :
    ∃ sol, run students topics_count = .ok sol :=
  run_ok_of_capacity students topics_count
    (fun sv hsv => (hvalid.2 sv hsv).1)
    (fun sv hsv => (hvalid.2 sv hsv).2.1) hcap

/-- Witness for `C3_within_capacity_succeeds` at a concrete two-student,
two-topic instance filling capacity exactly half. -/
theorem C3_within_capacity_succeeds_witness :
    validPrefs [("a", [Vote.mk 0 9]), ("b", [Vote.mk 1 9])] 2 ∧
    (([("a", [Vote.mk 0 9]), ("b", [Vote.mk 1 9])] :
        List (String × List Vote)).length : Int) ≤ 2 * 2 ∧
    ∃ sol, run [("a", [Vote.mk 0 9]), ("b", [Vote.mk 1 9])] 2 = .ok sol :=
  ⟨by decide, by decide,
    C3_within_capacity_succeeds [("a", [Vote.mk 0 9]), ("b", [Vote.mk 1 9])] 2
      (by decide) (by decide)⟩

/-- C4: when the model admits no feasible assignment, the solve reports the
`Infeasible` solve error, a variant distinct from every malformed-input
validation error, so callers can tell invalid data from a well-formed
problem with no solution. -/
theorem C4_infeasible_is_distinct_variant (students : List (String × List Vote))
    (topics_count : Int)
    (hsum : ∀ sv ∈ students, voteSum sv.2 = 9)
    (hinf : ∀ asg ∈ allAssignments (pyRange topics_count) students.length,
      feasible ⟨students, topics_count⟩ asg = false) :
    run students topics_count = .error (.solve .infeasible) ∧
    ∀ e : ValidationError, (RunError.solve .infeasible) ≠ RunError.validation e := by
  constructor
  · rw [run, mkPreferences_ok_of_sums students topics_count hsum]
    simp only
    rw [solvePrefs.eq_def]
    simp only
    have hemp : (allAssignments (pyRange topics_count) students.length).filter
        (feasible ⟨students, topics_count⟩) = [] := by
      rw [List.filter_eq_nil_iff]
      intro a ha hfeas
      rw [hinf a ha] at hfeas
      cases hfeas
    rw [hemp, pickBest]
  · intro e h
    cases h

/-- Witness for `C4_infeasible_is_distinct_variant`: three students all
voting only for topic 0, with one topic of capacity 2 — infeasible. -/
theorem C4_infeasible_is_distinct_variant_witness :
    (∀ sv ∈ ([("a", [Vote.mk 0 9]), ("b", [Vote.mk 0 9]), ("c", [Vote.mk 0 9])] :
      List (String × List Vote)), voteSum sv.2 = 9) ∧
    (∀ asg ∈ allAssignments (pyRange 1)
        ([("a", [Vote.mk 0 9]), ("b", [Vote.mk 0 9]), ("c", [Vote.mk 0 9])] :
          List (String × List Vote)).length,
      feasible ⟨[("a", [Vote.mk 0 9]), ("b", [Vote.mk 0 9]), ("c", [Vote.mk 0 9])], 1⟩
        asg = false) ∧
    (run [("a", [Vote.mk 0 9]), ("b", [Vote.mk 0 9]), ("c", [Vote.mk 0 9])] 1 =
      .error (.solve .infeasible) ∧
     ∀ e : ValidationError, (RunError.solve .infeasible) ≠ RunError.validation e) :=
  ⟨by decide, by decide,
    C4_infeasible_is_distinct_variant
      [("a", [Vote.mk 0 9]), ("b", [Vote.mk 0 9]), ("c", [Vote.mk 0 9])] 1
      (by decide) (by decide)⟩

/-- C8: an agent's vote list may contain several votes for the same resource
id; construction and solving proceed without error (given weights summing
to 9, non-negative weights, and enough capacity), and the model value the
agent gets for that resource is the preference of the LAST such vote —
earlier duplicate weights are discarded by the dict comprehension. -/
theorem C8_last_duplicate_vote_wins (students : List (String × List Vote))
    (topics_count : Int)
    (hsum : ∀ sv ∈ students, voteSum sv.2 = 9)
    (hnn : ∀ sv ∈ students, ∀ v ∈ sv.2, 0 ≤ v.preference)
    (hcap : (students.length : Int) ≤ topics_count * 2)
    (s : String) (votes : List Vote) (t w : Int) (post : List Vote)
    (hmem : (s, votes ++ Vote.mk t w :: post) ∈ students)
    (hpost : ∀ v ∈ post, v.topic_id ≠ t) :
    (∃ sol, run students topics_count = .ok sol) ∧
    topicValue (votes ++ Vote.mk t w :: post) t = w := by
  refine ⟨run_ok_of_capacity students topics_count hsum hnn hcap, ?_⟩
  rw [topicValue]
  have h1 : (votes ++ Vote.mk t w :: post).reverse =
      (post.reverse ++ [Vote.mk t w]) ++ votes.reverse := by
    rw [List.reverse_append, List.reverse_cons]
  rw [h1, List.find?_append, List.find?_append]
  have hp : post.reverse.find? (fun v => v.topic_id == t) = none := by
    rw [List.find?_eq_none]
    intro x hx
    simpa using hpost x (List.mem_reverse.mp hx)
  have hone : List.find? (fun v => v.topic_id == t) [Vote.mk t w] =
      some (Vote.mk t w) := by
    simp
  rw [hp, hone]
  rfl

/-- Witness for `C8_last_duplicate_vote_wins`: agent "a" votes (0,4) then
(0,5); the instance solves and the model value for topic 0 is 5. -/
theorem C8_last_duplicate_vote_wins_witness :
    (∀ sv ∈ ([("a", [Vote.mk 0 4, Vote.mk 0 5])] : List (String × List Vote)),
      voteSum sv.2 = 9) ∧
    (∀ sv ∈ ([("a", [Vote.mk 0 4, Vote.mk 0 5])] : List (String × List Vote)),
      ∀ v ∈ sv.2, 0 ≤ v.preference) ∧
    ((([("a", [Vote.mk 0 4, Vote.mk 0 5])] : List (String × List Vote)).length : Int) ≤
      1 * 2) ∧
    ("a", [Vote.mk 0 4] ++ Vote.mk 0 5 :: ([] : List Vote)) ∈
      ([("a", [Vote.mk 0 4, Vote.mk 0 5])] : List (String × List Vote)) ∧
    (∀ v ∈ ([] : List Vote), v.topic_id ≠ 0) ∧
    ((∃ sol, run [("a", [Vote.mk 0 4, Vote.mk 0 5])] 1 = .ok sol) ∧
     topicValue ([Vote.mk 0 4] ++ Vote.mk 0 5 :: ([] : List Vote)) 0 = 5) :=
  ⟨by decide, by decide, by decide, by decide, by decide,
    C8_last_duplicate_vote_wins [("a", [Vote.mk 0 4, Vote.mk 0 5])] 1
      (by decide) (by decide) (by decide) "a" [Vote.mk 0 4] 0 5 []
      (by decide) (by decide)⟩

end Solver
